import Mathlib

/-!
Verification of the production balancing engine of the satisfaktory
repository (`models.py`, `production_graph.py`).

Shallow embedding conventions:
* Python `float` values are modelled as exact rationals `ℚ`; every number the
  algorithms manipulate is produced by `ProductionGraph.round_float`, which the
  source implements with `Decimal(str(value)).quantize(..., ROUND_HALF_UP)`
  (exact decimal arithmetic on the shortest decimal representation), so the
  rational model matches the decimal arithmetic of the source on its outputs.
* Python `dict`s (insertion ordered, unique keys, first-match lookup) are
  modelled as association lists together with `dget` (`dict.get(k, d)`) and
  `dset` (`dict[k] = v`: replace in place if the key is present, else append).
* Python statements that can raise are modelled with `Except PyErr`:
  `ZeroDivisionError` from `production / consumption`, `KeyError` from
  `total_production[output_item]`, and the `ValueError` of unpacking a
  3-tuple into two variables in `identify_bottlenecks`.
-/

inductive PyErr where
  | zeroDivisionError
  | keyError
  | valueError
  | typeError
  deriving DecidableEq, Repr

/-- `d.get(k, default)` on an insertion-ordered dictionary. -/
def dget {α : Type} (m : List (String × α)) (k : String) (d : α) : α :=
  (List.lookup k m).getD d

/-- `d[k] = v` on an insertion-ordered dictionary: overwrite the entry if the
key is present, otherwise append the new entry at the end. -/
def dset {α : Type} (m : List (String × α)) (k : String) (v : α) : List (String × α) :=
  if m.any (fun p => p.1 = k) then m.map (fun p => if p.1 = k then (k, v) else p)
  else m ++ [(k, v)]



/-- `ProductionGraph.round_float` (production_graph.py:13): quantize to
`decimal_places` decimal digits with `ROUND_HALF_UP`, i.e. round to the nearest
multiple of `10^(-decimal_places)` with ties going away from zero. -/
def round_float (value : ℚ) (decimal_places : ℕ) : ℚ :=
  let p : ℚ := 10 ^ decimal_places
  if 0 ≤ value then ((⌊value * p + 1 / 2⌋ : ℤ) : ℚ) / p
  else -(((⌊-value * p + 1 / 2⌋ : ℤ) : ℚ) / p)

/-- `ResourceNode.calculate_output_rate`'s purity table (models.py:77):
`{"Impure": 0.5, "Normal": 1, "Pure": 2}`; looking up any other purity string
raises `KeyError`, modelled as `none`. -/
def purity_multiplier (purity : String) : Option ℚ :=
  if purity = "Impure" then some (1 / 2)
  else if purity = "Normal" then some 1
  else if purity = "Pure" then some 2
  else none

/-- `ResourceNode` (models.py:50): all attributes of the Python object.  The
Python constructor assigns `output_rate` last, from `calculate_output_rate`. -/
structure ResourceNode where
  node_id : Int
  resource_type : String
  purity : String
  miner_type : String
  miner_rate : ℚ
  clock_speed : ℚ
  output_rate : ℚ
  deriving DecidableEq, Repr

namespace ResourceNode

/-- `ResourceNode.calculate_output_rate` (models.py:70):
`purity_multiplier[self.purity] * self.miner_rate * (self.clock_speed / 100.0)`;
`none` models the `KeyError` on an unknown purity string. -/
def calculate_output_rate (n : ResourceNode) : Option ℚ :=
  (purity_multiplier n.purity).map fun mult => mult * n.miner_rate * (n.clock_speed / 100)

/-- `ResourceNode.__init__` (models.py:51): stores the attributes, sets
`clock_speed` to `100.0`, then computes and caches `output_rate` (the
placeholder `0` in the intermediate record is immediately overwritten; the
whole construction fails iff the purity lookup fails). -/
def init (node_id : Int) (resource_type purity miner_type : String) (miner_rate : ℚ) :
    Option ResourceNode :=
  let n : ResourceNode :=
    { node_id := node_id, resource_type := resource_type, purity := purity,
      miner_type := miner_type, miner_rate := miner_rate, clock_speed := 100,
      output_rate := 0 }
  n.calculate_output_rate.map fun r => { n with output_rate := r }

/-- `ResourceNode.set_clock_speed` (models.py:80):
`self.clock_speed = max(0.001, min(250, clock_speed))` followed by
`self.output_rate = self.calculate_output_rate()`. -/
def set_clock_speed (n : ResourceNode) (clock_speed : ℚ) : Option ResourceNode :=
  let n1 : ResourceNode := { n with clock_speed := max 0.001 (min 250 clock_speed) }
  n1.calculate_output_rate.map fun r => { n1 with output_rate := r }

end ResourceNode

/-- `Facility` (models.py:90): all attributes of the Python object. -/
structure Facility where
  facility_id : Int
  facility_type : String
  recipe : String
  input_items : List (String × ℚ)
  output_items : List (String × ℚ)
  clock_speed : ℚ
  is_active : Bool
  deriving DecidableEq, Repr

namespace Facility

/-- `Facility.__init__` (models.py:91): empty item lists, clock speed `100.0`,
active by default. -/
def init (facility_id : Int) (facility_type recipe : String) : Facility :=
  { facility_id := facility_id, facility_type := facility_type, recipe := recipe,
    input_items := [], output_items := [], clock_speed := 100, is_active := true }

/-- `Facility.set_input_item` (models.py:108): append to the input list. -/
def set_input_item (f : Facility) (item : String) (rate : ℚ) : Facility :=
  { f with input_items := f.input_items ++ [(item, rate)] }

/-- `Facility.set_output_item` (models.py:118): append to the output list. -/
def set_output_item (f : Facility) (item : String) (rate : ℚ) : Facility :=
  { f with output_items := f.output_items ++ [(item, rate)] }

/-- `Facility.set_clock_speed` (models.py:140):
`self.clock_speed = max(0.001, min(250, clock_speed))`; nothing is recomputed. -/
def set_clock_speed (f : Facility) (clock_speed : ℚ) : Facility :=
  { f with clock_speed := max 0.001 (min 250 clock_speed) }

/-- `Facility.toggle_active_state` (models.py:149). -/
def toggle_active_state (f : Facility) : Facility :=
  { f with is_active := !f.is_active }

/-- `Facility.get_adjusted_rates` (models.py:155): `([], [])` when inactive,
otherwise every stored rate times `clock_speed / 100.0`, in list order. -/
def get_adjusted_rates (f : Facility) : List (String × ℚ) × List (String × ℚ) :=
  if !f.is_active then ([], [])
  else
    let adjustment_factor := f.clock_speed / 100
    (f.input_items.map fun p => (p.1, p.2 * adjustment_factor),
     f.output_items.map fun p => (p.1, p.2 * adjustment_factor))

end Facility

/-- `Base` (models.py:4): integer-keyed insertion-ordered maps of nodes and
facilities, plus the storage ledger. -/
structure Base where
  base_id : Int
  name : String
  nodes : List (Int × ResourceNode)
  facilities : List (Int × Facility)
  storage : List (String × ℚ)
  deriving DecidableEq, Repr

/-- `ProductionGraph` (production_graph.py:5): the sites map and the unlinked
node pool, both insertion-ordered integer-keyed maps. -/
structure ProductionGraph where
  bases : List (Int × Base)
  unlinked_nodes : List (Int × ResourceNode)
  deriving DecidableEq, Repr

namespace ProductionGraph

/-- The two aggregation passes of `calculate_production_rates`
(production_graph.py:46-72): raw production from site nodes then unlinked
nodes, copied into `total_production`, then per-facility adjusted inputs into
`total_consumption` and adjusted outputs into `total_production`; every running
total is re-rounded to 2 decimals after each addition.  Returns
`(total_production, total_consumption)` as they stand before the shortage
pass. -/
def aggregate (g : ProductionGraph) : List (String × ℚ) × List (String × ℚ) :=
  let raw_production : List (String × ℚ) :=
    (g.bases.map Prod.snd).foldl
      (fun acc base =>
        (base.nodes.map Prod.snd).foldl
          (fun acc node =>
            dset acc node.resource_type
              (round_float (dget acc node.resource_type 0 + node.output_rate) 2))
          acc)
      []
  let raw_production : List (String × ℚ) :=
    (g.unlinked_nodes.map Prod.snd).foldl
      (fun acc node =>
        dset acc node.resource_type
          (round_float (dget acc node.resource_type 0 + node.output_rate) 2))
      raw_production
  let total_production := raw_production
  (g.bases.map Prod.snd).foldl
    (fun pc base =>
      (base.facilities.map Prod.snd).foldl
        (fun pc facility =>
          let ar := facility.get_adjusted_rates
          let total_consumption :=
            ar.1.foldl
              (fun acc p => dset acc p.1 (round_float (dget acc p.1 0 + p.2) 2)) pc.2
          let total_production :=
            ar.2.foldl
              (fun acc p => dset acc p.1 (round_float (dget acc p.1 0 + p.2) 2)) pc.1
          (total_production, total_consumption))
        pc)
    (total_production, [])

/-- One iteration of the shortage-propagation loop of
`calculate_production_rates` (production_graph.py:75-89), processing one
`(item, consumption)` entry of `total_consumption` against the current
`(total_production, limiting_factors)` state.  The division
`total_production.get(item, 0) / consumption` raises `ZeroDivisionError` when
`consumption == 0`; the direct indexing `total_production[output_item]` raises
`KeyError` when the key is absent. -/
def shortage_step (g : ProductionGraph)
    (st : List (String × ℚ) × List (String × List String)) (e : String × ℚ) :
    Except PyErr (List (String × ℚ) × List (String × List String)) :=
  if e.2 > dget st.1 e.1 0 then
    if e.2 = 0 then .error .zeroDivisionError
    else
      let prod_frac := round_float (dget st.1 e.1 0 / e.2) 4
      let st1 := (st.1, dset st.2 e.1 [])
      (g.bases.map Prod.snd).foldl
        (fun acc base =>
          (base.facilities.map Prod.snd).foldl
            (fun acc facility =>
              Except.bind acc fun st2 =>
                let ar := facility.get_adjusted_rates
                if ar.1.any (fun p => p.1 = e.1) then
                  ar.2.foldl
                    (fun acc2 oe =>
                      Except.bind acc2 fun st3 =>
                        match List.lookup oe.1 st3.1 with
                        | none => .error .keyError
                        | some cur =>
                          let prod' :=
                            dset st3.1 oe.1 (round_float (cur - oe.2 * (1 - prod_frac)) 2)
                          let lim0 :=
                            if st3.2.any (fun p => p.1 = oe.1) then st3.2
                            else dset st3.2 oe.1 []
                          .ok (prod', dset lim0 oe.1 (dget lim0 oe.1 [] ++ [e.1])))
                    (.ok st2)
                else .ok st2)
            acc)
        (.ok st1)
  else .ok st

/-- `ProductionGraph.calculate_production_rates` (production_graph.py:36-91):
the two aggregation passes followed by one sweep of the shortage-propagation
loop over `total_consumption` as it stands after aggregation; returns
`(total_production, total_consumption, limiting_factors)`.  A raised Python
exception is an `Except.error`. -/
def calculate_production_rates (g : ProductionGraph) :
    Except PyErr
      (List (String × ℚ) × List (String × ℚ) × List (String × List String)) :=
  let pc := g.aggregate
  Except.map (fun st => (st.1, pc.2, st.2))
    (pc.2.foldl (fun acc e => Except.bind acc fun st => g.shortage_step st e)
      (.ok (pc.1, [])))

end ProductionGraph

/-- A dynamically typed Python value, needed to model the tuple unpacking in
`identify_bottlenecks`: `calculate_production_rates` returns a 3-tuple whose
components have two different types. -/
inductive PyVal where
  | rdict : List (String × ℚ) → PyVal
  | ldict : List (String × List String) → PyVal
  deriving DecidableEq, Repr

namespace ProductionGraph

/-- The value of the expression `self.calculate_production_rates()` as the
dynamic tuple (list of values) that `identify_bottlenecks` unpacks. -/
def calculate_production_rates_tuple (g : ProductionGraph) : Except PyErr (List PyVal) :=
  Except.map (fun r => [PyVal.rdict r.1, PyVal.rdict r.2.1, PyVal.ldict r.2.2])
    g.calculate_production_rates

/-- The tuple unpacking `production, consumption = ...`: succeeds only on a
2-element tuple, otherwise raises `ValueError` (too many / not enough values
to unpack). -/
def unpack2 : List PyVal → Except PyErr (PyVal × PyVal)
  | [a, b] => .ok (a, b)
  | _ => .error .valueError

/-- `ProductionGraph.identify_bottlenecks` (production_graph.py:93-110):
`production, consumption = self.calculate_production_rates()` followed by the
deficit loop.  The deficit loop is transcribed below the unpacking exactly as
in the source (Python iterates `set(production) | set(consumption)` in an
unspecified order; the transcription uses first-occurrence order, which is
immaterial because the unpacking of the 3-tuple into two variables raises
before the loop is ever reached). -/
def identify_bottlenecks (g : ProductionGraph) : Except PyErr (List (String × ℚ)) :=
  Except.bind g.calculate_production_rates_tuple fun t =>
    Except.bind (unpack2 t) fun pv =>
      match pv.1, pv.2 with
      | .rdict production, .rdict consumption =>
          .ok ((production.map Prod.fst ++ consumption.map Prod.fst).dedup.foldl
            (fun acc item =>
              let deficit := round_float (dget consumption item 0 - dget production item 0) 2
              if deficit > 0 then dset acc item deficit else acc)
            [])
      | _, _ => .error .typeError

/-- `ProductionGraph.calculate_production_rates_for_base`
(production_graph.py:174-208): the two aggregation passes restricted to the
nodes and facilities of the one site `base_id`; `({}, {})` when the site id is
absent; no shortage pass. -/
def calculate_production_rates_for_base (g : ProductionGraph) (base_id : Int) :
    List (String × ℚ) × List (String × ℚ) :=
  match List.lookup base_id g.bases with
  | none => ([], [])
  | some base =>
    let production : List (String × ℚ) :=
      (base.nodes.map Prod.snd).foldl
        (fun acc node =>
          dset acc node.resource_type
            (round_float (dget acc node.resource_type 0 + node.output_rate) 2))
        []
    (base.facilities.map Prod.snd).foldl
      (fun pc facility =>
        let ar := facility.get_adjusted_rates
        let consumption :=
          ar.1.foldl
            (fun acc p => dset acc p.1 (round_float (dget acc p.1 0 + p.2) 2)) pc.2
        let production :=
          ar.2.foldl
            (fun acc p => dset acc p.1 (round_float (dget acc p.1 0 + p.2) 2)) pc.1
        (production, consumption))
      (production, [])

/-- All facilities of all sites, in iteration order. -/
def allFacilities (g : ProductionGraph) : List Facility :=
  (g.bases.map Prod.snd).flatMap fun b => b.facilities.map Prod.snd

end ProductionGraph

/-!
Specification-level description of the shortage-propagation pass, written from
the spec's step 3 as amended: the sweep is a single structural recursion over
the consumption entries in which each visited resource is compared against the
current (possibly already reduced) production total, so a shortage created by
earlier cuts of the same sweep is itself propagated when the affected resource
occurs later in the consumption map, and entering the branch resets that
resource's limiting-factors list to the empty list.  These definitions are
deliberately structured differently from the transcription above (flat
facility list, structural recursion instead of left folds) and are compared
with it theorem `c1_amended`.
-/

/-- Cut every output of one throttled converter: each output contribution is
reduced by `rate × (1 − frac)` (re-rounded to 2 decimals) and the shortage
resource `short` is appended to the output item's limiting-factors list. -/
def cutOutputs (short : String) (frac : ℚ) :
    List (String × ℚ) → List (String × ℚ) → List (String × List String) →
    Except PyErr (List (String × ℚ) × List (String × List String))
  | [], prod, lim => .ok (prod, lim)
  | oe :: rest, prod, lim =>
    match List.lookup oe.1 prod with
    | none => .error .keyError
    | some cur =>
        cutOutputs short frac rest
          (dset prod oe.1 (round_float (cur - oe.2 * (1 - frac)) 2))
          (let lim1 :=
            if (List.lookup oe.1 lim).isSome then lim else dset lim oe.1 []
           dset lim1 oe.1 (dget lim1 oe.1 [] ++ [short]))

/-- Visit every converter once; those listing the shortage resource among their
adjusted inputs have their outputs cut. -/
def cutFacilities (short : String) (frac : ℚ) :
    List Facility → List (String × ℚ) → List (String × List String) →
    Except PyErr (List (String × ℚ) × List (String × List String))
  | [], prod, lim => .ok (prod, lim)
  | f :: fs, prod, lim =>
    if ((f.get_adjusted_rates).1.map Prod.fst).contains short then
      match cutOutputs short frac (f.get_adjusted_rates).2 prod lim with
      | .error err => .error err
      | .ok st => cutFacilities short frac fs st.1 st.2
    else cutFacilities short frac fs prod lim

/-- The amended shortage-propagation sweep: one visit per consumption entry,
comparing against and dividing by the *current* state. -/
def propagateSpec (facs : List Facility) :
    List (String × ℚ) → List (String × ℚ) → List (String × List String) →
    Except PyErr (List (String × ℚ) × List (String × List String))
  | [], prod, lim => .ok (prod, lim)
  | e :: rest, prod, lim =>
    if dget prod e.1 0 < e.2 then
      if e.2 = 0 then .error .zeroDivisionError
      else
        match cutFacilities e.1 (round_float (dget prod e.1 0 / e.2) 4) facs prod
            (dset lim e.1 []) with
        | .error err => .error err
        | .ok st => propagateSpec facs rest st.1 st.2
    else propagateSpec facs rest prod lim

instance {e a : Type} [DecidableEq e] [DecidableEq a] : DecidableEq (Except e a) := fun x y =>
  match x, y with
  | .ok u, .ok v =>
    if h : u = v then isTrue (by rw [h]) else isFalse (fun he => h (Except.ok.inj he))
  | .error u, .error v =>
    if h : u = v then isTrue (by rw [h]) else isFalse (fun he => h (Except.error.inj he))
  | .ok _, .error _ => isFalse (fun he => Except.noConfusion he)
  | .error _, .ok _ => isFalse (fun he => Except.noConfusion he)

/-!
Concrete states used by the witnesses and counterexamples.  Each record is the
state the Python constructors produce: clock speed 100 and, for nodes, the
cached `output_rate` computed from purity, miner rate and clock speed.
-/

/-- Scenario A node: Iron Ore, Normal purity, base rate 60, clock 100. -/
def ironNode : ResourceNode :=
  ⟨1, "Iron Ore", "Normal", "Miner Mk.1", 60, 100, 60⟩

/-- Scenario A converter: 30 Iron Ore → 30 Iron Ingot, clock 100, active. -/
def ironSmelter : Facility :=
  ⟨1, "Smelter", "Iron Ingot", [("Iron Ore", 30)], [("Iron Ingot", 30)], 100, true⟩

def siteA : Base := ⟨1, "Main", [(1, ironNode)], [(1, ironSmelter)], []⟩

def graphA : ProductionGraph := ⟨[(1, siteA)], []⟩

/-- Chained-shortage graph: 30 Ore produced; converter 1 wants 60 Ore and
makes 30 Ingot; converter 2 wants 30 Ingot and makes 30 Plate.  After
aggregation Ingot is exactly balanced (30 produced, 30 consumed); only the
Ore shortage cut makes Ingot short. -/
def oreNode1 : ResourceNode := ⟨1, "Ore", "Normal", "Miner Mk.1", 30, 100, 30⟩

def smelter1 : Facility := ⟨1, "Smelter", "Ingot", [("Ore", 60)], [("Ingot", 30)], 100, true⟩

def constructor1 : Facility :=
  ⟨2, "Constructor", "Plate", [("Ingot", 30)], [("Plate", 30)], 100, true⟩

def siteChain : Base := ⟨1, "Chain", [(1, oreNode1)], [(1, smelter1), (2, constructor1)], []⟩

def graphChain : ProductionGraph := ⟨[(1, siteChain)], []⟩

/-- A graph on which the shortage pass divides by zero: the facility consumes
resource X at rate 0 (consumption total 0.00) and stores a negative output
rate for X (production total −5), numbers the constructors accept unchecked;
the branch guard `0 > −5` holds and `ratio = −5 / 0` raises. -/
def zeroFacility : Facility := ⟨1, "Sink", "Custom", [("X", 0)], [("X", -5)], 100, true⟩

def siteZ : Base := ⟨1, "Z", [], [(1, zeroFacility)], []⟩

def graphZ : ProductionGraph := ⟨[(1, siteZ)], []⟩

/-- Every recorded limiting factor is certified by a converter that lists the
factor among its adjusted inputs and the limited item among its adjusted
outputs. -/
def LimCert (facs : List Facility) (l : List (String × List String)) : Prop :=
  ∀ item lst, List.lookup item l = some lst → ∀ x ∈ lst,
    ∃ f ∈ facs, ((f.get_adjusted_rates).1.any fun q => q.1 = x) ∧
      ((f.get_adjusted_rates).2.any fun q => q.1 = item)

namespace Dict

theorem lookup_cons_eq {α : Type} {k : String} (p : String × α) (rest : List (String × α))
    (h : k = p.1) : List.lookup k (p :: rest) = some p.2 := by
  cases p with
  | mk a b =>
    rw [List.lookup_cons, show (k == a) = true from beq_iff_eq.mpr h]

theorem lookup_cons_ne {α : Type} {k : String} (p : String × α) (rest : List (String × α))
    (h : k ≠ p.1) : List.lookup k (p :: rest) = List.lookup k rest := by
  cases p with
  | mk a b =>
    rw [List.lookup_cons, show (k == a) = false from beq_eq_false_iff_ne.mpr h]

theorem lookup_eq_some_mem {α : Type} {m : List (String × α)} {k : String} {v : α}
    (h : List.lookup k m = some v) : (k, v) ∈ m := by
  induction m with
  | nil => simp at h
  | cons p rest ih =>
    by_cases hk : k = p.1
    · rw [lookup_cons_eq p rest hk] at h
      cases h
      have : (k, p.2) = p := Prod.ext hk rfl
      rw [this]
      exact List.mem_cons_self _ _
    · rw [lookup_cons_ne p rest hk] at h
      exact List.mem_cons_of_mem _ (ih h)

theorem mem_dset {α : Type} {m : List (String × α)} {k : String} {v : α} {p : String × α}
    (h : p ∈ dset m k v) : p = (k, v) ∨ p ∈ m := by
  unfold dset at h
  by_cases hc : m.any (fun q => q.1 = k)
  · rw [if_pos hc] at h
    rcases List.mem_map.mp h with ⟨q, hq, hqe⟩
    by_cases hqk : q.1 = k
    · rw [if_pos hqk] at hqe
      exact Or.inl hqe.symm
    · rw [if_neg hqk] at hqe
      exact Or.inr (hqe ▸ hq)
  · rw [if_neg hc] at h
    rcases List.mem_append.mp h with h' | h'
    · exact Or.inr h'
    · simp at h'
      exact Or.inl h'

theorem lookup_map_replace_ne {α : Type} {k k' : String} (v : α) (h : k' ≠ k) :
    ∀ m : List (String × α),
      List.lookup k' (m.map fun p => if p.1 = k then (k, v) else p) = List.lookup k' m
  | [] => rfl
  | p :: rest => by
    rw [List.map_cons]
    by_cases hpk : p.1 = k
    · rw [if_pos hpk, lookup_cons_ne (k, v) _ h, lookup_cons_ne p rest (hpk ▸ h)]
      exact lookup_map_replace_ne v h rest
    · rw [if_neg hpk]
      by_cases hkp : k' = p.1
      · rw [lookup_cons_eq p _ hkp, lookup_cons_eq p rest hkp]
      · rw [lookup_cons_ne p _ hkp, lookup_cons_ne p rest hkp]
        exact lookup_map_replace_ne v h rest

theorem lookup_append_one_ne {α : Type} {k k' : String} (v : α) (h : k' ≠ k) :
    ∀ m : List (String × α), List.lookup k' (m ++ [(k, v)]) = List.lookup k' m
  | [] => by
    rw [List.nil_append, lookup_cons_ne (k, v) [] h]
  | p :: rest => by
    rw [List.cons_append]
    by_cases hkp : k' = p.1
    · rw [lookup_cons_eq p _ hkp, lookup_cons_eq p rest hkp]
    · rw [lookup_cons_ne p _ hkp, lookup_cons_ne p rest hkp]
      exact lookup_append_one_ne v h rest

theorem lookup_dset_ne {α : Type} (m : List (String × α)) {k k' : String} (v : α)
    (h : k' ≠ k) : List.lookup k' (dset m k v) = List.lookup k' m := by
  unfold dset
  by_cases hc : m.any (fun q => q.1 = k)
  · rw [if_pos hc]
    exact lookup_map_replace_ne v h m
  · rw [if_neg hc]
    exact lookup_append_one_ne v h m

theorem lookup_map_replace_self {α : Type} {k : String} (v : α) :
    ∀ m : List (String × α), (∃ q ∈ m, q.1 = k) →
      List.lookup k (m.map fun p => if p.1 = k then (k, v) else p) = some v
  | [], h => by simp at h
  | p :: rest, h => by
    rw [List.map_cons]
    by_cases hpk : p.1 = k
    · rw [if_pos hpk, lookup_cons_eq (k, v) _ rfl]
    · rw [if_neg hpk, lookup_cons_ne p _ (fun he => hpk he.symm)]
      rcases h with ⟨q, hq, hqk⟩
      rcases List.mem_cons.mp hq with h' | h'
      · exact absurd (h' ▸ hqk) hpk
      · exact lookup_map_replace_self v rest ⟨q, h', hqk⟩

theorem lookup_append_one_self {α : Type} {k : String} (v : α) :
    ∀ m : List (String × α), (∀ q ∈ m, q.1 ≠ k) →
      List.lookup k (m ++ [(k, v)]) = some v
  | [], _ => by
    rw [List.nil_append, lookup_cons_eq (k, v) [] rfl]
  | p :: rest, h => by
    rw [List.cons_append,
      lookup_cons_ne p _ (fun he => h p (List.mem_cons_self _ _) he.symm)]
    exact lookup_append_one_self v rest fun q hq => h q (List.mem_cons_of_mem _ hq)

theorem lookup_dset_self {α : Type} (m : List (String × α)) (k : String) (v : α) :
    List.lookup k (dset m k v) = some v := by
  unfold dset
  by_cases hc : m.any (fun q => q.1 = k)
  · rw [if_pos hc]
    rcases List.any_eq_true.mp hc with ⟨q, hq, hqk⟩
    simp only [decide_eq_true_eq] at hqk
    exact lookup_map_replace_self v m ⟨q, hq, hqk⟩
  · rw [if_neg hc]
    refine lookup_append_one_self v m fun q hq hqk => hc ?_
    exact List.any_eq_true.mpr ⟨q, hq, by simp [hqk]⟩

theorem lookup_dset_isSome {α : Type} (m : List (String × α)) (k k' : String) (v : α)
    (h : (List.lookup k' m).isSome) : (List.lookup k' (dset m k v)).isSome := by
  by_cases hk : k' = k
  · subst hk
    rw [lookup_dset_self]
    rfl
  · rw [lookup_dset_ne m v hk]
    exact h

end Dict

/-- C5: for every purity with a multiplier (Impure ½, Normal 1, Pure 2), a
node built by the constructor has clock speed 100 and cached output rate
`multiplier × miner_rate × clock_speed/100`, and after any `set_clock_speed`
call the recomputed cached rate again equals
`multiplier × miner_rate × clock_speed/100` with the stored clock speed
clamped into [0.001, 250]. -/
theorem c5_output_rate_formula (p : String) (m : ℚ) (hp : purity_multiplier p = some m) :
    (∀ (nid : Int) (rt mt : String) (rate : ℚ) (n : ResourceNode),
        ResourceNode.init nid rt p mt rate = some n →
        n.clock_speed = 100 ∧ n.output_rate = m * rate * (n.clock_speed / 100)) ∧
    (∀ (n n' : ResourceNode) (v : ℚ), n.purity = p → n.set_clock_speed v = some n' →
        (0.001 ≤ n'.clock_speed ∧ n'.clock_speed ≤ 250) ∧
        n'.output_rate = m * n'.miner_rate * (n'.clock_speed / 100)) := by
  constructor
  · intro nid rt mt rate n h
    simp only [ResourceNode.init, ResourceNode.calculate_output_rate, hp,
      Option.map_some'] at h
    cases h
    exact ⟨rfl, rfl⟩
  · intro n n' v hpur h
    simp only [ResourceNode.set_clock_speed, ResourceNode.calculate_output_rate, hpur, hp,
      Option.map_some'] at h
    cases h
    refine ⟨⟨le_max_left _ _, max_le (by norm_num) (min_le_left _ _)⟩, rfl⟩

unseal Rat.add Rat.mul Rat.inv Rat.sub Rat.ofScientific in
/-- Witness for `c5_output_rate_formula` at purity Normal, rate 60, and a
`set_clock_speed 150` call on the scenario-A node. -/
theorem c5_witness :
    (∃ n, ResourceNode.init 1 "Iron Ore" "Normal" "Miner Mk.1" 60 = some n ∧
      n.clock_speed = 100 ∧ n.output_rate = 1 * 60 * (n.clock_speed / 100)) ∧
    (∃ n', ironNode.set_clock_speed 150 = some n' ∧
      n'.output_rate = 1 * n'.miner_rate * (n'.clock_speed / 100)) := by
  have h := c5_output_rate_formula "Normal" 1 (by decide)
  constructor
  · exact ⟨⟨1, "Iron Ore", "Normal", "Miner Mk.1", 60, 100, 60⟩, by decide,
      h.1 1 "Iron Ore" "Miner Mk.1" 60 _ (by decide)⟩
  · exact ⟨⟨1, "Iron Ore", "Normal", "Miner Mk.1", 60, 150, 90⟩, by decide,
      (h.2 ironNode _ 150 (by decide) (by decide)).2⟩

/-- C6: clock speeds start at 100 and every setter stores
`max(0.001, min(250, x))`: 250 for x > 250, 0.001 for x < 0.001 (hence for
x ≤ 0), x itself when already in [0.001, 250]; the stored value always lies in
[0.001, 250].  The `Facility` setter is a total function; the `ResourceNode`
setter succeeds for every purity the constructor accepts. -/
theorem c6_clock_clamp :
    (∀ (fid : Int) (ft r : String), (Facility.init fid ft r).clock_speed = 100) ∧
    (∀ (nid : Int) (rt p mt : String) (rate : ℚ) (n : ResourceNode),
        ResourceNode.init nid rt p mt rate = some n → n.clock_speed = 100) ∧
    (∀ (f : Facility) (x : ℚ),
        (0.001 ≤ (f.set_clock_speed x).clock_speed ∧
          (f.set_clock_speed x).clock_speed ≤ 250) ∧
        (250 < x → (f.set_clock_speed x).clock_speed = 250) ∧
        (x < 0.001 → (f.set_clock_speed x).clock_speed = 0.001) ∧
        (x ≤ 0 → (f.set_clock_speed x).clock_speed = 0.001) ∧
        (0.001 ≤ x → x ≤ 250 → (f.set_clock_speed x).clock_speed = x)) ∧
    (∀ (n : ResourceNode) (m x : ℚ), purity_multiplier n.purity = some m →
        ∃ n', n.set_clock_speed x = some n' ∧
          (0.001 ≤ n'.clock_speed ∧ n'.clock_speed ≤ 250) ∧
          (250 < x → n'.clock_speed = 250) ∧
          (x < 0.001 → n'.clock_speed = 0.001) ∧
          (x ≤ 0 → n'.clock_speed = 0.001) ∧
          (0.001 ≤ x → x ≤ 250 → n'.clock_speed = x)) := by
  have clamp : ∀ x : ℚ,
      (0.001 ≤ max 0.001 (min 250 x) ∧ max 0.001 (min 250 x) ≤ 250) ∧
      (250 < x → max 0.001 (min 250 x) = 250) ∧
      (x < 0.001 → max 0.001 (min 250 x) = 0.001) ∧
      (x ≤ 0 → max 0.001 (min 250 x) = 0.001) ∧
      (0.001 ≤ x → x ≤ 250 → max 0.001 (min 250 x) = x) := by
    intro x
    refine ⟨⟨le_max_left _ _, max_le (by norm_num) (min_le_left _ _)⟩, ?_, ?_, ?_, ?_⟩
    · intro hx
      rw [min_eq_left hx.le, max_eq_right (by norm_num)]
    · intro hx
      rw [max_eq_left]
      exact le_trans (min_le_right _ _) hx.le
    · intro hx
      rw [max_eq_left]
      exact le_trans (min_le_right _ _) (le_trans hx (by norm_num))
    · intro hx1 hx2
      rw [min_eq_right hx2, max_eq_right hx1]
  refine ⟨fun _ _ _ => rfl, ?_, ?_, ?_⟩
  · intro nid rt p mt rate n h
    unfold ResourceNode.init at h
    rcases Option.map_eq_some'.mp h with ⟨r, _, hn⟩
    rw [← hn]
  · intro f x
    exact clamp x
  · intro n m x hp
    refine ⟨({ n with
        clock_speed := max 0.001 (min 250 x),
        output_rate := m * n.miner_rate * (max 0.001 (min 250 x) / 100) } : ResourceNode),
      ?_, clamp x⟩
    simp only [ResourceNode.set_clock_speed, ResourceNode.calculate_output_rate, hp,
      Option.map_some']

unseal Rat.add Rat.mul Rat.inv Rat.sub Rat.ofScientific in
/-- Witness for `c6_clock_clamp`: the constructor default and the setter on
concrete out-of-range and in-range inputs (300 → 250, −5 → 0.001, 50 → 50). -/
theorem c6_witness :
    (Facility.init 1 "Smelter" "Iron Ingot").clock_speed = 100 ∧
    (ironSmelter.set_clock_speed 300).clock_speed = 250 ∧
    (ironSmelter.set_clock_speed (-5)).clock_speed = 0.001 ∧
    (ironSmelter.set_clock_speed 50).clock_speed = 50 ∧
    (∃ n', ironNode.set_clock_speed 300 = some n' ∧ n'.clock_speed = 250) := by
  have h := c6_clock_clamp
  refine ⟨h.1 1 "Smelter" "Iron Ingot", ?_, ?_, ?_, ?_⟩
  · exact (h.2.2.1 ironSmelter 300).2.1 (by norm_num)
  · exact (h.2.2.1 ironSmelter (-5)).2.2.2.1 (by norm_num)
  · exact (h.2.2.1 ironSmelter 50).2.2.2.2 (by norm_num) (by norm_num)
  · rcases h.2.2.2 ironNode 1 300 (by decide) with ⟨n', hn', hc⟩
    exact ⟨n', hn', hc.2.1 (by norm_num)⟩

/-- C8: an inactive facility's `get_adjusted_rates` is `([], [])` whatever the
stored clock speed and item lists; an active facility's is the stored lists
with every rate multiplied by `clock_speed / 100`, order and duplicates
preserved. -/
theorem c8_adjusted_rates (f : Facility) :
    (f.is_active = false → f.get_adjusted_rates = ([], [])) ∧
    (f.is_active = true →
      f.get_adjusted_rates =
        (f.input_items.map fun p => (p.1, p.2 * (f.clock_speed / 100)),
         f.output_items.map fun p => (p.1, p.2 * (f.clock_speed / 100)))) := by
  constructor
  · intro h
    simp [Facility.get_adjusted_rates, h]
  · intro h
    simp [Facility.get_adjusted_rates, h]

unseal Rat.add Rat.mul Rat.inv Rat.sub Rat.ofScientific in
/-- Witness for `c8_adjusted_rates`: a deactivated copy of the scenario-A
converter (with a nonempty item list and clock 250) yields `([], [])`; the
active converter at clock 100 yields the stored lists scaled by 1. -/
theorem c8_witness :
    ({ ironSmelter with is_active := false, clock_speed := 250 } :
        Facility).get_adjusted_rates = ([], []) ∧
    ironSmelter.get_adjusted_rates = ([("Iron Ore", 30)], [("Iron Ingot", 30)]) := by
  constructor
  · exact (c8_adjusted_rates _).1 rfl
  · have h := (c8_adjusted_rates ironSmelter).2 rfl
    rw [h]
    decide

/-- C10: when `base_id` is not a key of the sites map,
`calculate_production_rates_for_base` returns two empty maps instead of
raising (the method reads the graph and never writes it, so the purely
functional embedding also records that the state is unchanged). -/
theorem c10_missing_base (g : ProductionGraph) (base_id : Int)
    (h : List.lookup base_id g.bases = none) :
    g.calculate_production_rates_for_base base_id = ([], []) := by
  unfold ProductionGraph.calculate_production_rates_for_base
  rw [h]

/-- Witness for `c10_missing_base`: the empty graph has no site 1. -/
theorem c10_witness :
    ProductionGraph.calculate_production_rates_for_base ⟨[], []⟩ 1 = ([], []) :=
  c10_missing_base ⟨[], []⟩ 1 rfl

/-- C4: when site `base_id` exists, the per-site query equals the two plain
aggregation passes run on the graph containing exactly that one site and an
empty unlinked pool: unlinked-pool nodes and every other site contribute
nothing, and the shortage-propagation discount of the global query is never
applied (the right-hand side is `aggregate`, not the shortage-adjusted
`calculate_production_rates`). -/
theorem c4_for_base_isolated (g : ProductionGraph) (base_id : Int) (base : Base)
    (h : List.lookup base_id g.bases = some base) :
    g.calculate_production_rates_for_base base_id =
      ProductionGraph.aggregate ⟨[(base_id, base)], []⟩ := by
  unfold ProductionGraph.calculate_production_rates_for_base
  rw [h]
  rfl

unseal Rat.add Rat.mul Rat.inv Rat.sub Rat.ofScientific in
/-- Witness for `c4_for_base_isolated`: a graph holding the scenario-A site,
a second site with a Pure copper node and an active converter, and an
unlinked Ore node; the per-site result for site 1 is that of site 1 alone. -/
theorem c4_witness :
    ProductionGraph.calculate_production_rates_for_base
        ⟨[(1, siteA), (2, ⟨2, "Other", [(2, ⟨2, "Copper Ore", "Pure", "Miner Mk.1", 60, 100,
            120⟩)], [(3, ⟨3, "Smelter", "Copper Ingot", [("Copper Ore", 30)],
            [("Copper Ingot", 30)], 100, true⟩)], []⟩)], [(9, oreNode1)]⟩ 1 =
      ProductionGraph.aggregate ⟨[(1, siteA)], []⟩ ∧
    ProductionGraph.aggregate ⟨[(1, siteA)], []⟩ =
      ([("Iron Ore", 60), ("Iron Ingot", 30)], [("Iron Ore", 30)]) := by
  constructor
  · exact c4_for_base_isolated _ 1 siteA (by decide)
  · decide

/-- C2: `identify_bottlenecks` never returns a result on any graph state: it
unpacks the 3-tuple of `calculate_production_rates` into two variables, so
every call raises — `ValueError` (too many values to unpack) whenever
`calculate_production_rates` itself returns, and the propagated exception
otherwise; on the empty graph the error is the `ValueError`. -/
theorem c2_identify_bottlenecks_raises :
    (∀ g : ProductionGraph, ∃ e, g.identify_bottlenecks = Except.error e) ∧
    ProductionGraph.identify_bottlenecks ⟨[], []⟩ = Except.error PyErr.valueError := by
  constructor
  · intro g
    unfold ProductionGraph.identify_bottlenecks ProductionGraph.calculate_production_rates_tuple
    cases h : g.calculate_production_rates with
    | error e =>
      exact ⟨e, rfl⟩
    | ok r =>
      exact ⟨PyErr.valueError, rfl⟩
  · rfl

/-- A property preserved by every step of a left fold holds of the result. -/
theorem foldl_preserve {σ α : Type} (P : σ → Prop) (f : σ → α → σ)
    (hf : ∀ s a, P s → P (f s a)) : ∀ (l : List α) (s : σ), P s → P (l.foldl f s)
  | [], _, h => h
  | a :: l, s, h => foldl_preserve P f hf l (f s a) (hf s a h)

/-- `round_float _ 2` always produces an integer number of hundredths. -/
theorem round_float_two_shape (x : ℚ) : ∃ i : ℤ, round_float x 2 = (i : ℚ) / 100 := by
  unfold round_float
  by_cases h : 0 ≤ x
  · rw [if_pos h]
    exact ⟨⌊x * 10 ^ 2 + 1 / 2⌋, by norm_num⟩
  · rw [if_neg h]
    refine ⟨-⌊-x * 10 ^ 2 + 1 / 2⌋, ?_⟩
    push_cast
    rw [neg_div]
    norm_num

/-- Inserting a freshly rounded total keeps every value of the map an integer
number of hundredths. -/
theorem twoDec_dset (m : List (String × ℚ)) (k : String) (x : ℚ)
    (hm : ∀ p ∈ m, ∃ i : ℤ, p.2 = (i : ℚ) / 100) :
    ∀ p ∈ dset m k (round_float x 2), ∃ i : ℤ, p.2 = (i : ℚ) / 100 := by
  intro p hp
  rcases Dict.mem_dset hp with h | h
  · rcases round_float_two_shape x with ⟨i, hi⟩
    exact ⟨i, by rw [h]; exact hi⟩
  · exact hm p h

/-- Every value of both aggregation maps is an integer number of hundredths:
each addition is immediately re-rounded to 2 decimal places. -/
theorem aggregate_twoDec (g : ProductionGraph) :
    (∀ p ∈ g.aggregate.1, ∃ i : ℤ, p.2 = (i : ℚ) / 100) ∧
    (∀ p ∈ g.aggregate.2, ∃ i : ℤ, p.2 = (i : ℚ) / 100) := by
  unfold ProductionGraph.aggregate
  have hnode : ∀ (acc : List (String × ℚ)) (node : ResourceNode),
      (∀ p ∈ acc, ∃ i : ℤ, p.2 = (i : ℚ) / 100) →
      ∀ p ∈ dset acc node.resource_type
          (round_float (dget acc node.resource_type 0 + node.output_rate) 2),
        ∃ i : ℤ, p.2 = (i : ℚ) / 100 :=
    fun acc node h => twoDec_dset acc _ _ h
  have hraw : ∀ p ∈ (g.unlinked_nodes.map Prod.snd).foldl
      (fun acc node =>
        dset acc node.resource_type
          (round_float (dget acc node.resource_type 0 + node.output_rate) 2))
      ((g.bases.map Prod.snd).foldl
        (fun acc base =>
          (base.nodes.map Prod.snd).foldl
            (fun acc node =>
              dset acc node.resource_type
                (round_float (dget acc node.resource_type 0 + node.output_rate) 2))
            acc)
        []), ∃ i : ℤ, p.2 = (i : ℚ) / 100 := by
    refine foldl_preserve _ _ hnode _ _ ?_
    refine foldl_preserve
      (fun m : List (String × ℚ) => ∀ p ∈ m, ∃ i : ℤ, p.2 = (i : ℚ) / 100) _ ?_ _ _ ?_
    · intro acc base h
      exact foldl_preserve _ _ hnode _ acc h
    · intro p hp
      simp at hp
  refine foldl_preserve
    (fun pc : List (String × ℚ) × List (String × ℚ) =>
      (∀ p ∈ pc.1, ∃ i : ℤ, p.2 = (i : ℚ) / 100) ∧
      (∀ p ∈ pc.2, ∃ i : ℤ, p.2 = (i : ℚ) / 100)) _ ?_ _ _ ⟨hraw, by intro p hp; simp at hp⟩
  intro pc base h
  refine foldl_preserve
    (fun pc : List (String × ℚ) × List (String × ℚ) =>
      (∀ p ∈ pc.1, ∃ i : ℤ, p.2 = (i : ℚ) / 100) ∧
      (∀ p ∈ pc.2, ∃ i : ℤ, p.2 = (i : ℚ) / 100)) _ ?_ _ pc h
  intro pc2 facility h2
  constructor
  · exact foldl_preserve _ _ (fun acc p h' => twoDec_dset acc _ _ h') _ _ h2.1
  · exact foldl_preserve _ _ (fun acc p h' => twoDec_dset acc _ _ h') _ _ h2.2

unseal Rat.add Rat.mul Rat.inv Rat.sub Rat.ofScientific in
/-- C3: every accumulated production/consumption total is re-rounded to 2
decimal places after each addition (so every stored value is an integer
number of hundredths), the rounding is half-up (0.005 → 0.01, and 0.025 →
0.03 where banker's rounding would give 0.02), and on the one-node one-converter
scenario the query returns exactly production {Iron Ore: 60, Iron Ingot: 30},
consumption {Iron Ore: 30} (and no limiting factors). -/
theorem c3_rounding_and_scenario_a :
    (∀ g : ProductionGraph, ∀ p ∈ g.aggregate.1, ∃ i : ℤ, p.2 = (i : ℚ) / 100) ∧
    (∀ g : ProductionGraph, ∀ p ∈ g.aggregate.2, ∃ i : ℤ, p.2 = (i : ℚ) / 100) ∧
    round_float (5 / 1000) 2 = 1 / 100 ∧
    round_float (15 / 1000) 2 = 2 / 100 ∧
    round_float (25 / 1000) 2 = 3 / 100 ∧
    graphA.calculate_production_rates =
      .ok ([("Iron Ore", 60), ("Iron Ingot", 30)], [("Iron Ore", 30)], []) := by
  exact ⟨fun g => (aggregate_twoDec g).1, fun g => (aggregate_twoDec g).2,
    by decide, by decide, by decide, by decide⟩

unseal Rat.add Rat.mul Rat.inv Rat.sub Rat.ofScientific in
/-- Witness for `c3_rounding_and_scenario_a`: the Iron Ore total 60 of the
scenario-A graph is an integer number of hundredths, as is the consumption
total 30. -/
theorem c3_witness :
    (∃ i : ℤ, (60 : ℚ) = (i : ℚ) / 100) ∧ (∃ i : ℤ, (30 : ℚ) = (i : ℚ) / 100) :=
  ⟨c3_rounding_and_scenario_a.1 graphA ("Iron Ore", 60) (by decide),
   c3_rounding_and_scenario_a.2.1 graphA ("Iron Ore", 30) (by decide)⟩

unseal Rat.add Rat.mul Rat.inv Rat.sub Rat.ofScientific in
/-- Counterexample to C1 as stated.  On `graphChain`, after the aggregation
passes Ingot is exactly balanced (production 30, consumption 30), so under the
claim — shortages taken from the totals as they stood after aggregation, cuts
never re-propagated — only the Ore shortage would act: Plate would stay at 30
with no limiting-factors entry, and Ingot's entry would be ["Ore"].  The code
instead compares each visited resource against the *current* production total:
the Ore cut makes Ingot short mid-pass, Ingot's entry is reset to [] and the
Ingot shortage is propagated to Plate (cut 30 → 15, limited by "Ingot"). -/
theorem c1_counterexample :
    graphChain.aggregate =
      ([("Ore", 30), ("Ingot", 30), ("Plate", 30)], [("Ore", 60), ("Ingot", 30)]) ∧
    graphChain.calculate_production_rates =
      .ok ([("Ore", 30), ("Ingot", 15), ("Plate", 15)], [("Ore", 60), ("Ingot", 30)],
        [("Ore", []), ("Ingot", []), ("Plate", ["Ingot"])]) := by
  constructor
  · decide
  · decide

unseal Rat.add Rat.mul Rat.inv Rat.sub Rat.ofScientific in
/-- Counterexample to C7 as stated: on `graphZ` the shortage branch is entered
for X (consumption total 0 exceeds production total −5) and the ratio division
divides by zero, so `calculate_production_rates` raises `ZeroDivisionError` —
the claimed guard `consumption > production` does not make the divisor
positive, because nothing keeps production totals non-negative. -/
theorem c7_counterexample :
    graphZ.aggregate = ([("X", -5)], [("X", 0)]) ∧
    graphZ.calculate_production_rates = .error PyErr.zeroDivisionError := by
  constructor
  · decide
  · decide

theorem exc_ok_bind {e s t : Type} (a : s) (f : s → Except e t) :
    Except.bind (Except.ok a) f = f a := rfl

theorem exc_error_stable {e s t : Type} (err : e) (f : s → Except e t) :
    Except.bind (Except.error err) f = Except.error err := rfl

/-- A left fold whose step leaves errors untouched maps an error to itself. -/
theorem foldl_error_stable {e s b : Type} (step : Except e s → b → Except e s)
    (hstep : ∀ err x, step (Except.error err) x = Except.error err) (err : e) :
    ∀ l : List b, l.foldl step (Except.error err) = Except.error err
  | [] => rfl
  | x :: l => by
    rw [List.foldl_cons, hstep err x]
    exact foldl_error_stable step hstep err l

/-- `dict.any (key test)` coincides with `lookup …​.isSome`. -/
theorem any_eq_lookup_isSome {α : Type} (k : String) :
    ∀ m : List (String × α), (m.any fun p => p.1 = k) = (List.lookup k m).isSome
  | [] => rfl
  | p :: rest => by
    by_cases h : p.1 = k
    · simp [List.any_cons, h, Dict.lookup_cons_eq p rest h.symm]
    · simp only [List.any_cons, h, decide_eq_false_iff_not.mpr h, Bool.false_or,
        Dict.lookup_cons_ne p rest (fun he => h he.symm)]
      exact any_eq_lookup_isSome k rest

/-- Membership of a key among the first components, the two spellings used by
the transcription and the specification-level recursion. -/
theorem contains_map_fst {α : Type} (k : String) :
    ∀ l : List (String × α), ((l.map Prod.fst).contains k) = l.any fun p => p.1 = k
  | [] => rfl
  | p :: rest => by
    by_cases h : p.1 = k
    · simp [List.contains_cons, List.any_cons, h]
    · simp only [List.map_cons, List.contains_cons, List.any_cons, h,
        decide_eq_false_iff_not.mpr h, Bool.false_or]
      rw [show (k == p.1) = false from beq_eq_false_iff_ne.mpr fun he => h he.symm,
        Bool.false_or]
      exact contains_map_fst k rest

/-- The transcription's innermost loop (cut each adjusted output of one
throttled converter) equals the specification-level `cutOutputs`. -/
theorem code_outputs_eq_cutOutputs (item : String) (frac : ℚ) :
    ∀ (outs : List (String × ℚ)) (st : List (String × ℚ) × List (String × List String)),
      outs.foldl
        (fun acc2 oe =>
          Except.bind acc2 fun st3 =>
            match List.lookup oe.1 st3.1 with
            | none => Except.error PyErr.keyError
            | some cur =>
              Except.ok
                (dset st3.1 oe.1 (round_float (cur - oe.2 * (1 - frac)) 2),
                 dset (if st3.2.any (fun p => p.1 = oe.1) then st3.2 else dset st3.2 oe.1 [])
                   oe.1
                   (dget (if st3.2.any (fun p => p.1 = oe.1) then st3.2 else dset st3.2 oe.1 [])
                     oe.1 [] ++ [item])))
        (Except.ok st) = cutOutputs item frac outs st.1 st.2
  | [], st => by
    rw [List.foldl_nil]
    rfl
  | oe :: rest, st => by
    rw [List.foldl_cons, exc_ok_bind]
    rcases h : List.lookup oe.1 st.1 with _ | cur
    · rw [foldl_error_stable _ (fun err x => rfl) PyErr.keyError rest]
      simp only [cutOutputs, h]
    · rw [code_outputs_eq_cutOutputs item frac rest _]
      simp only [cutOutputs, h, any_eq_lookup_isSome]

/-- `cutFacilities` over a concatenation is sequential composition. -/
theorem cutFacilities_append (short : String) (frac : ℚ) :
    ∀ (l1 l2 : List Facility) (prod : List (String × ℚ)) (lim : List (String × List String)),
      cutFacilities short frac (l1 ++ l2) prod lim =
        Except.bind (cutFacilities short frac l1 prod lim)
          (fun st => cutFacilities short frac l2 st.1 st.2)
  | [], l2, prod, lim => by
    rw [List.nil_append]
    rfl
  | f :: l1, l2, prod, lim => by
    rw [List.cons_append]
    simp only [cutFacilities]
    by_cases hc : ((f.get_adjusted_rates).1.map Prod.fst).contains short
    · rw [if_pos hc, if_pos hc]
      rcases h : cutOutputs short frac (f.get_adjusted_rates).2 prod lim with err | st'
      · rfl
      · exact cutFacilities_append short frac l1 l2 st'.1 st'.2
    · rw [if_neg hc, if_neg hc]
      exact cutFacilities_append short frac l1 l2 prod lim

/-- The transcription's per-site facility loop equals the specification-level
`cutFacilities` on that site's facility list. -/
theorem code_facilities_eq_cutFacilities (item : String) (frac : ℚ) :
    ∀ (fs : List Facility) (st : List (String × ℚ) × List (String × List String)),
      fs.foldl
        (fun acc facility =>
          Except.bind acc fun st2 =>
            if (facility.get_adjusted_rates).1.any (fun p => p.1 = item) then
              (facility.get_adjusted_rates).2.foldl
                (fun acc2 oe =>
                  Except.bind acc2 fun st3 =>
                    match List.lookup oe.1 st3.1 with
                    | none => Except.error PyErr.keyError
                    | some cur =>
                      Except.ok
                        (dset st3.1 oe.1 (round_float (cur - oe.2 * (1 - frac)) 2),
                         dset
                           (if st3.2.any (fun p => p.1 = oe.1) then st3.2
                            else dset st3.2 oe.1 [])
                           oe.1
                           (dget
                             (if st3.2.any (fun p => p.1 = oe.1) then st3.2
                              else dset st3.2 oe.1 [])
                             oe.1 [] ++ [item])))
                (Except.ok st2)
            else Except.ok st2)
        (Except.ok st) = cutFacilities item frac fs st.1 st.2
  | [], st => by
    rw [List.foldl_nil]
    rfl
  | f :: fs, st => by
    rw [List.foldl_cons, exc_ok_bind]
    by_cases hin : ((f.get_adjusted_rates).1.any fun p => p.1 = item) = true
    · rw [if_pos hin, code_outputs_eq_cutOutputs item frac _ st]
      rcases h : cutOutputs item frac (f.get_adjusted_rates).2 st.1 st.2 with err | st'
      · rw [foldl_error_stable _ (fun err x => rfl) _ fs]
        simp only [cutFacilities, contains_map_fst, hin, if_true]
        rw [h]
      · rw [code_facilities_eq_cutFacilities item frac fs st']
        simp only [cutFacilities, contains_map_fst, hin, if_true]
        rw [h]
    · rw [if_neg hin, code_facilities_eq_cutFacilities item frac fs st]
      have hin' : (((f.get_adjusted_rates).1.map Prod.fst).contains item) = false := by
        rw [contains_map_fst]
        exact Bool.not_eq_true _ |>.mp hin
      simp only [cutFacilities, hin', Bool.false_eq_true, if_false]

/-- The transcription's site-by-site double loop equals the specification-level
`cutFacilities` on the flattened facility list. -/
theorem code_bases_eq_cutFacilities (item : String) (frac : ℚ) :
    ∀ (bs : List Base) (st : List (String × ℚ) × List (String × List String)),
      bs.foldl
        (fun acc base =>
          (base.facilities.map Prod.snd).foldl
            (fun acc facility =>
              Except.bind acc fun st2 =>
                if (facility.get_adjusted_rates).1.any (fun p => p.1 = item) then
                  (facility.get_adjusted_rates).2.foldl
                    (fun acc2 oe =>
                      Except.bind acc2 fun st3 =>
                        match List.lookup oe.1 st3.1 with
                        | none => Except.error PyErr.keyError
                        | some cur =>
                          Except.ok
                            (dset st3.1 oe.1 (round_float (cur - oe.2 * (1 - frac)) 2),
                             dset
                               (if st3.2.any (fun p => p.1 = oe.1) then st3.2
                                else dset st3.2 oe.1 [])
                               oe.1
                               (dget
                                 (if st3.2.any (fun p => p.1 = oe.1) then st3.2
                                  else dset st3.2 oe.1 [])
                                 oe.1 [] ++ [item])))
                    (Except.ok st2)
                else Except.ok st2)
            acc)
        (Except.ok st) =
      cutFacilities item frac (bs.flatMap fun b => b.facilities.map Prod.snd) st.1 st.2
  | [], st => by
    rw [List.foldl_nil]
    rfl
  | b :: bs, st => by
    rw [List.foldl_cons, code_facilities_eq_cutFacilities item frac _ st]
    rw [List.flatMap_cons, cutFacilities_append]
    rcases h : cutFacilities item frac (b.facilities.map Prod.snd) st.1 st.2 with err | st'
    · rw [foldl_error_stable _ ?_ err bs]
      · rfl
      · intro err2 base
        exact foldl_error_stable _ (fun e x => rfl) err2 _
    · rw [exc_ok_bind, code_bases_eq_cutFacilities item frac bs st']

/-- One shortage-loop iteration equals its specification-level description:
the guard and the ratio read the *current* production total, a zero
consumption total raises, and the cut runs over the flat facility list. -/
theorem shortage_step_eq (g : ProductionGraph)
    (st : List (String × ℚ) × List (String × List String)) (e : String × ℚ) :
    g.shortage_step st e =
      if dget st.1 e.1 0 < e.2 then
        if e.2 = 0 then Except.error PyErr.zeroDivisionError
        else
          cutFacilities e.1 (round_float (dget st.1 e.1 0 / e.2) 4) g.allFacilities
            st.1 (dset st.2 e.1 [])
      else Except.ok st := by
  simp only [ProductionGraph.shortage_step]
  by_cases h1 : dget st.1 e.1 0 < e.2
  · rw [if_pos h1, if_pos h1]
    by_cases h2 : e.2 = 0
    · rw [if_pos h2, if_pos h2]
    · rw [if_neg h2, if_neg h2]
      exact code_bases_eq_cutFacilities e.1 _ (g.bases.map Prod.snd)
        (st.1, dset st.2 e.1 [])
  · rw [if_neg h1, if_neg h1]

/-- The whole shortage loop equals the specification-level sweep. -/
theorem shortage_pass_eq_propagateSpec (g : ProductionGraph) :
    ∀ (todo : List (String × ℚ)) (st : List (String × ℚ) × List (String × List String)),
      todo.foldl (fun acc e => Except.bind acc fun st => g.shortage_step st e)
          (Except.ok st) =
        propagateSpec g.allFacilities todo st.1 st.2
  | [], st => by
    rw [List.foldl_nil]
    rfl
  | e :: rest, st => by
    rw [List.foldl_cons, exc_ok_bind, shortage_step_eq]
    by_cases h1 : dget st.1 e.1 0 < e.2
    · rw [if_pos h1]
      simp only [propagateSpec]
      rw [if_pos h1]
      by_cases h2 : e.2 = 0
      · rw [if_pos h2, if_pos h2, foldl_error_stable _ (fun err x => rfl) _ rest]
      · rw [if_neg h2, if_neg h2]
        rcases h : cutFacilities e.1 (round_float (dget st.1 e.1 0 / e.2) 4)
            g.allFacilities st.1 (dset st.2 e.1 []) with err | st'
        · rw [foldl_error_stable _ (fun err x => rfl) _ rest]
        · rw [shortage_pass_eq_propagateSpec g rest st']
    · rw [if_neg h1]
      simp only [propagateSpec]
      rw [if_neg h1]
      exact shortage_pass_eq_propagateSpec g rest st

/-- C1 as amended: `calculate_production_rates` is the two aggregation passes
followed by the single specification-level sweep `propagateSpec` over the
consumption map as it stood after aggregation — a sweep whose shortage test
and ratio use the production total *as already reduced by the cuts of
earlier-visited resources* (so a shortage created by those subtractions is
itself propagated when the affected resource occurs later in the consumption
map, and entering the branch resets that resource's limiting-factors list to
empty), visiting each consumption entry exactly once, never revisiting one. -/
theorem c1_amended_single_pass (g : ProductionGraph) :
    g.calculate_production_rates =
      Except.map (fun st => (st.1, g.aggregate.2, st.2))
        (propagateSpec g.allFacilities g.aggregate.2 g.aggregate.1 []) := by
  simp only [ProductionGraph.calculate_production_rates]
  rw [shortage_pass_eq_propagateSpec g g.aggregate.2 (g.aggregate.1, [])]

/-- The only exception the output-cut loop can raise is the `KeyError`. -/
theorem cutOutputs_error_eq_keyError (short : String) (frac : ℚ) :
    ∀ (outs : List (String × ℚ)) (prod : List (String × ℚ))
      (lim : List (String × List String)) (err : PyErr),
      cutOutputs short frac outs prod lim = Except.error err → err = PyErr.keyError
  | [], prod, lim, err => by
    intro h
    exact absurd h (by simp [cutOutputs])
  | oe :: rest, prod, lim, err => by
    intro h
    simp only [cutOutputs] at h
    rcases hl : List.lookup oe.1 prod with _ | cur
    · rw [hl] at h
      exact (Except.error.inj h).symm
    · rw [hl] at h
      exact cutOutputs_error_eq_keyError short frac rest _ _ err h

/-- The only exception the facility-cut loop can raise is the `KeyError`. -/
theorem cutFacilities_error_eq_keyError (short : String) (frac : ℚ) :
    ∀ (fs : List Facility) (prod : List (String × ℚ))
      (lim : List (String × List String)) (err : PyErr),
      cutFacilities short frac fs prod lim = Except.error err → err = PyErr.keyError
  | [], prod, lim, err => by
    intro h
    exact absurd h (by simp [cutFacilities])
  | f :: fs, prod, lim, err => by
    intro h
    simp only [cutFacilities] at h
    by_cases hc : ((f.get_adjusted_rates).1.map Prod.fst).contains short
    · rw [if_pos hc] at h
      rcases hco : cutOutputs short frac (f.get_adjusted_rates).2 prod lim with e2 | st'
      · rw [hco] at h
        exact (Except.error.inj h) ▸ cutOutputs_error_eq_keyError short frac _ _ _ e2 hco
      · rw [hco] at h
        exact cutFacilities_error_eq_keyError short frac fs st'.1 st'.2 err h
    · rw [if_neg hc] at h
      exact cutFacilities_error_eq_keyError short frac fs prod lim err h

/-- When no visited consumption total is zero, the sweep never divides by
zero. -/
theorem propagateSpec_no_divzero (facs : List Facility) :
    ∀ (todo : List (String × ℚ)) (prod : List (String × ℚ))
      (lim : List (String × List String)),
      (∀ e ∈ todo, e.2 ≠ 0) →
      propagateSpec facs todo prod lim ≠ Except.error PyErr.zeroDivisionError
  | [], prod, lim => by
    intro _
    simp [propagateSpec]
  | e :: rest, prod, lim => by
    intro hne h
    simp only [propagateSpec] at h
    by_cases h1 : dget prod e.1 0 < e.2
    · rw [if_pos h1] at h
      rw [if_neg (hne e (List.mem_cons_self _ _))] at h
      rcases hcf : cutFacilities e.1 (round_float (dget prod e.1 0 / e.2) 4) facs prod
          (dset lim e.1 []) with err | st'
      · rw [hcf] at h
        have := cutFacilities_error_eq_keyError _ _ _ _ _ _ hcf
        rw [this] at h
        exact PyErr.noConfusion (Except.error.inj h)
      · rw [hcf] at h
        exact propagateSpec_no_divzero facs rest st'.1 st'.2
          (fun x hx => hne x (List.mem_cons_of_mem _ hx)) h
    · rw [if_neg h1] at h
      exact propagateSpec_no_divzero facs rest prod lim
        (fun x hx => hne x (List.mem_cons_of_mem _ hx)) h

/-- C7 as amended: the ratio's divisor is the visited resource's accumulated
consumption total, so for every graph state whose aggregated consumption
totals are all nonzero the division-by-zero case is unreachable (the guard
`consumption > production` alone does not ensure this, because production
totals can be negative — see `c7_counterexample`). -/
theorem c7_amended_no_div_zero (g : ProductionGraph)
    (h : ∀ p ∈ g.aggregate.2, p.2 ≠ (0 : ℚ)) :
    g.calculate_production_rates ≠ Except.error PyErr.zeroDivisionError := by
  simp only [ProductionGraph.calculate_production_rates]
  rw [shortage_pass_eq_propagateSpec g _ (g.aggregate.1, [])]
  intro hcontra
  rcases hx : propagateSpec g.allFacilities g.aggregate.2 g.aggregate.1 [] with err | st
  · rw [hx] at hcontra
    exact propagateSpec_no_divzero g.allFacilities g.aggregate.2 g.aggregate.1 []
      (fun e he hz => h e he hz) ((Except.error.inj hcontra) ▸ hx)
  · rw [hx] at hcontra
    exact Except.noConfusion hcontra

unseal Rat.add Rat.mul Rat.inv Rat.sub Rat.ofScientific in
/-- Witness for `c7_amended_no_div_zero`: scenario A's only consumption total
is 30 ≠ 0, so its query cannot raise `ZeroDivisionError`. -/
theorem c7_amended_witness :
    graphA.calculate_production_rates ≠ Except.error PyErr.zeroDivisionError :=
  c7_amended_no_div_zero graphA (by decide)

theorem round_float_nonneg (x : ℚ) (d : ℕ) (h : 0 ≤ x) : 0 ≤ round_float x d := by
  unfold round_float
  rw [if_pos h]
  have hp : (0:ℚ) < 10 ^ d := by positivity
  apply div_nonneg _ hp.le
  have h0 : (0:ℤ) ≤ ⌊x * 10 ^ d + 1 / 2⌋ := Int.floor_nonneg.mpr (by positivity)
  exact_mod_cast h0

theorem round_float_mono (d : ℕ) {x y : ℚ} (h : x ≤ y) :
    round_float x d ≤ round_float y d := by
  unfold round_float
  have hp : (0:ℚ) < 10 ^ d := by positivity
  by_cases hx : 0 ≤ x
  · have hy : 0 ≤ y := le_trans hx h
    rw [if_pos hx, if_pos hy]
    rw [div_le_div_iff_of_pos_right hp]
    have hf : ⌊x * 10 ^ d + 1 / 2⌋ ≤ ⌊y * 10 ^ d + 1 / 2⌋ :=
      Int.floor_le_floor (by nlinarith)
    exact_mod_cast hf
  · by_cases hy : 0 ≤ y
    · rw [if_neg hx, if_pos hy]
      have h1 : (0:ℤ) ≤ ⌊-x * 10 ^ d + 1 / 2⌋ := by
        apply Int.floor_nonneg.mpr
        nlinarith
      have h2 : (0:ℤ) ≤ ⌊y * 10 ^ d + 1 / 2⌋ := by
        apply Int.floor_nonneg.mpr
        nlinarith
      have h1q : (0:ℚ) ≤ (⌊-x * 10 ^ d + 1 / 2⌋ : ℤ) := by exact_mod_cast h1
      have h2q : (0:ℚ) ≤ (⌊y * 10 ^ d + 1 / 2⌋ : ℤ) := by exact_mod_cast h2
      have hd1 := div_nonneg h1q hp.le
      have hd2 := div_nonneg h2q hp.le
      linarith
    · rw [if_neg hx, if_neg hy]
      apply neg_le_neg
      rw [div_le_div_iff_of_pos_right hp]
      have hf : ⌊-y * 10 ^ d + 1 / 2⌋ ≤ ⌊-x * 10 ^ d + 1 / 2⌋ :=
        Int.floor_le_floor (by nlinarith)
      exact_mod_cast hf

/-- `round_float` at 2 decimals fixes every integer number of hundredths. -/
theorem round_float_fix_two (i : ℤ) : round_float ((i : ℚ) / 100) 2 = (i : ℚ) / 100 := by
  unfold round_float
  have hkey : ∀ j : ℤ, ⌊(j : ℚ) + 1 / 2⌋ = j := by
    intro j
    rw [Int.floor_int_add]
    norm_num
  by_cases h : 0 ≤ (i : ℚ) / 100
  · rw [if_pos h]
    have : (i : ℚ) / 100 * 10 ^ 2 + 1 / 2 = (i : ℚ) + 1 / 2 := by
      field_simp
      ring
    rw [this, hkey i]
    norm_num
  · rw [if_neg h]
    have : -((i : ℚ) / 100) * 10 ^ 2 + 1 / 2 = ((-i : ℤ) : ℚ) + 1 / 2 := by
      push_cast
      field_simp
      ring
    rw [this, hkey (-i)]
    push_cast
    ring

/-- When `x < 1` the rounded 4-decimal ratio is at most 1. -/
theorem round_float_four_le_one (x : ℚ) (h : x < 1) : round_float x 4 ≤ 1 := by
  unfold round_float
  by_cases hx : 0 ≤ x
  · rw [if_pos hx]
    have hfl : ⌊x * 10 ^ 4 + 1 / 2⌋ ≤ 10 ^ 4 := by
      have hle : (⌊x * 10 ^ 4 + 1 / 2⌋ : ℚ) ≤ x * 10 ^ 4 + 1 / 2 := Int.floor_le _
      have hlt : (⌊x * 10 ^ 4 + 1 / 2⌋ : ℚ) < 10 ^ 4 + 1 := by nlinarith
      have hlt2 : ⌊x * 10 ^ 4 + 1 / 2⌋ < 10 ^ 4 + 1 := by exact_mod_cast hlt
      omega
    rw [div_le_one (by positivity)]
    exact_mod_cast hfl
  · rw [if_neg hx]
    have h1 : (0:ℤ) ≤ ⌊-x * 10 ^ 4 + 1 / 2⌋ := by
      apply Int.floor_nonneg.mpr
      nlinarith
    have h1q : (0:ℚ) ≤ (⌊-x * 10 ^ 4 + 1 / 2⌋ : ℤ) := by exact_mod_cast h1
    have := div_nonneg h1q (by positivity : (0:ℚ) ≤ 10 ^ 4)
    linarith

theorem dget_of_lookup {α : Type} {m : List (String × α)} {k : String} {v : α} (d : α)
    (h : List.lookup k m = some v) : dget m k d = v := by
  unfold dget
  rw [h]
  rfl

theorem dget_of_lookup_none {α : Type} {m : List (String × α)} {k : String} (d : α)
    (h : List.lookup k m = none) : dget m k d = d := by
  unfold dget
  rw [h]
  rfl

theorem dget_dset_self {α : Type} (m : List (String × α)) (k : String) (v d : α) :
    dget (dset m k v) k d = v :=
  dget_of_lookup d (Dict.lookup_dset_self m k v)

theorem dget_dset_ne {α : Type} (m : List (String × α)) {k k' : String} (v d : α)
    (h : k' ≠ k) : dget (dset m k v) k' d = dget m k' d := by
  unfold dget
  rw [Dict.lookup_dset_ne m v h]

theorem dget_nonneg (m : List (String × ℚ)) (k : String)
    (hm : ∀ p ∈ m, 0 ≤ p.2) : 0 ≤ dget m k 0 := by
  unfold dget
  rcases h : List.lookup k m with _ | v
  · exact le_refl 0
  · exact hm (k, v) (Dict.lookup_eq_some_mem h)

/-- `foldl_preserve` with the step hypothesis restricted to list members. -/
theorem foldl_preserve_mem {σ α : Type} (P : σ → Prop) (f : σ → α → σ) :
    ∀ l : List α, (∀ s a, a ∈ l → P s → P (f s a)) → ∀ s, P s → P (l.foldl f s)
  | [], _, _, h => h
  | a :: l, hf, s, h =>
    foldl_preserve_mem P f l (fun s x hx => hf s x (List.mem_cons_of_mem _ hx)) (f s a)
      (hf s a (List.mem_cons_self _ _) h)

theorem nonneg_dset_round (m : List (String × ℚ)) (k : String) (x : ℚ)
    (hm : ∀ p ∈ m, 0 ≤ p.2) (hx : 0 ≤ x) :
    ∀ p ∈ dset m k (round_float x 2), 0 ≤ p.2 := by
  intro p hp
  rcases Dict.mem_dset hp with h | h
  · rw [h]
    exact round_float_nonneg x 2 hx
  · exact hm p h

/-- With nonnegative adjusted input rates, every aggregated consumption total
is nonnegative. -/
theorem aggregate_cons_nonneg (g : ProductionGraph)
    (hin : ∀ f ∈ g.allFacilities, ∀ q ∈ (f.get_adjusted_rates).1, 0 ≤ q.2) :
    ∀ p ∈ g.aggregate.2, 0 ≤ p.2 := by
  unfold ProductionGraph.aggregate
  refine (foldl_preserve_mem
    (fun pc : List (String × ℚ) × List (String × ℚ) => ∀ p ∈ pc.2, 0 ≤ p.2)
    _ (g.bases.map Prod.snd) ?_ _ (by intro p hp; simp at hp))
  intro pc base hbase hpc
  refine (foldl_preserve_mem
    (fun pc : List (String × ℚ) × List (String × ℚ) => ∀ p ∈ pc.2, 0 ≤ p.2)
    _ (base.facilities.map Prod.snd) ?_ pc hpc)
  intro pc2 facility hfac hpc2
  have hmem : facility ∈ g.allFacilities := by
    unfold ProductionGraph.allFacilities
    exact List.mem_flatMap.mpr ⟨base, hbase, hfac⟩
  refine (foldl_preserve_mem (fun m : List (String × ℚ) => ∀ p ∈ m, 0 ≤ p.2)
    _ (facility.get_adjusted_rates).1 ?_ pc2.2 hpc2)
  intro m q hq hm
  exact nonneg_dset_round m q.1 _ hm
    (add_nonneg (dget_nonneg m q.1 hm) (hin facility hmem q hq))

/-- With a ratio at most 1 and nonnegative output rates, the output-cut loop
never increases any production total, and keeps every total an integer number
of hundredths. -/
theorem cutOutputs_prod (short : String) (frac : ℚ) (hfrac : frac ≤ 1) :
    ∀ (outs prod : List (String × ℚ)) (lim : List (String × List String))
      (p' : List (String × ℚ)) (l' : List (String × List String)),
      (∀ q ∈ outs, 0 ≤ q.2) →
      (∀ p ∈ prod, ∃ i : ℤ, p.2 = (i : ℚ) / 100) →
      cutOutputs short frac outs prod lim = Except.ok (p', l') →
      (∀ key, dget p' key 0 ≤ dget prod key 0) ∧
      (∀ p ∈ p', ∃ i : ℤ, p.2 = (i : ℚ) / 100)
  | [], prod, lim, p', l' => by
    intro _ hvals h
    simp only [cutOutputs] at h
    rcases Prod.mk.injEq _ _ _ _ ▸ Except.ok.inj h with ⟨h1, h2⟩
    subst h1
    exact ⟨fun key => le_refl _, hvals⟩
  | oe :: rest, prod, lim, p', l' => by
    intro houts hvals h
    simp only [cutOutputs] at h
    rcases hl : List.lookup oe.1 prod with _ | cur
    · rw [hl] at h
      exact Except.noConfusion h
    · rw [hl] at h
      have hcur2 : ∃ i : ℤ, cur = (i : ℚ) / 100 :=
        hvals (oe.1, cur) (Dict.lookup_eq_some_mem hl)
      have hδ : 0 ≤ oe.2 * (1 - frac) :=
        mul_nonneg (houts oe (List.mem_cons_self _ _)) (by linarith)
      have hstep : round_float (cur - oe.2 * (1 - frac)) 2 ≤ cur := by
        rcases hcur2 with ⟨i, hi⟩
        calc round_float (cur - oe.2 * (1 - frac)) 2 ≤ round_float cur 2 :=
              round_float_mono 2 (by linarith)
          _ = cur := by rw [hi, round_float_fix_two]
      have ih := cutOutputs_prod short frac hfrac rest _ _ p' l'
        (fun q hq => houts q (List.mem_cons_of_mem _ hq))
        (twoDec_dset prod oe.1 _ hvals) h
      refine ⟨fun key => le_trans (ih.1 key) ?_, ih.2⟩
      by_cases hk : key = oe.1
      · subst hk
        rw [dget_dset_self, dget_of_lookup 0 hl]
        exact hstep
      · rw [dget_dset_ne prod _ 0 hk]

/-- The output-cut loop never deletes a limiting-factors key. -/
theorem cutOutputs_lim (short : String) (frac : ℚ) :
    ∀ (outs prod : List (String × ℚ)) (lim : List (String × List String))
      (p' : List (String × ℚ)) (l' : List (String × List String)),
      cutOutputs short frac outs prod lim = Except.ok (p', l') →
      ∀ k, (List.lookup k lim).isSome → (List.lookup k l').isSome
  | [], prod, lim, p', l' => by
    intro h k hk
    simp only [cutOutputs] at h
    rcases Prod.mk.injEq _ _ _ _ ▸ Except.ok.inj h with ⟨h1, h2⟩
    subst h2
    exact hk
  | oe :: rest, prod, lim, p', l' => by
    intro h k hk
    simp only [cutOutputs] at h
    rcases hl : List.lookup oe.1 prod with _ | cur
    · rw [hl] at h
      exact Except.noConfusion h
    · rw [hl] at h
      refine cutOutputs_lim short frac rest _ _ p' l' h k ?_
      apply Dict.lookup_dset_isSome
      by_cases hc : (List.lookup oe.1 lim).isSome
      · rw [if_pos hc]
        exact hk
      · rw [if_neg hc]
        exact Dict.lookup_dset_isSome _ _ _ _ hk

theorem limCert_dset_nil (facs : List Facility) (l : List (String × List String))
    (k : String) (h : LimCert facs l) : LimCert facs (dset l k []) := by
  intro item lst hl x hx
  by_cases hik : item = k
  · subst hik
    rw [Dict.lookup_dset_self] at hl
    cases hl
    simp at hx
  · rw [Dict.lookup_dset_ne l _ hik] at hl
    exact h item lst hl x hx

theorem cutOutputs_cert (facs : List Facility) (f0 : Facility) (short : String) (frac : ℚ)
    (hf0 : f0 ∈ facs) (hin0 : ((f0.get_adjusted_rates).1.any fun q => q.1 = short) = true) :
    ∀ (outs prod : List (String × ℚ)) (lim : List (String × List String))
      (p' : List (String × ℚ)) (l' : List (String × List String)),
      (∀ q ∈ outs, q ∈ (f0.get_adjusted_rates).2) →
      LimCert facs lim →
      cutOutputs short frac outs prod lim = Except.ok (p', l') →
      LimCert facs l'
  | [], prod, lim, p', l' => by
    intro _ hcert h
    simp only [cutOutputs] at h
    rcases Prod.mk.injEq _ _ _ _ ▸ Except.ok.inj h with ⟨h1, h2⟩
    subst h2
    exact hcert
  | oe :: rest, prod, lim, p', l' => by
    intro hsub hcert h
    simp only [cutOutputs] at h
    rcases hl : List.lookup oe.1 prod with _ | cur
    · rw [hl] at h
      exact Except.noConfusion h
    · rw [hl] at h
      have hcert1 : LimCert facs
          (if (List.lookup oe.1 lim).isSome then lim else dset lim oe.1 []) := by
        by_cases hc : (List.lookup oe.1 lim).isSome
        · rw [if_pos hc]
          exact hcert
        · rw [if_neg hc]
          exact limCert_dset_nil facs lim oe.1 hcert
      have hcert2 : LimCert facs
          (dset (if (List.lookup oe.1 lim).isSome then lim else dset lim oe.1 []) oe.1
            (dget (if (List.lookup oe.1 lim).isSome then lim else dset lim oe.1 [])
              oe.1 [] ++ [short])) := by
        intro item lst hli x hx
        by_cases hik : item = oe.1
        · subst hik
          rw [Dict.lookup_dset_self] at hli
          cases hli
          rcases List.mem_append.mp hx with hx1 | hx2
          · rcases hdg : List.lookup oe.1
                (if (List.lookup oe.1 lim).isSome then lim else dset lim oe.1 []) with
              _ | l0
            · rw [dget_of_lookup_none [] hdg] at hx1
              simp at hx1
            · rw [dget_of_lookup [] hdg] at hx1
              exact hcert1 oe.1 l0 hdg x hx1
          · simp at hx2
            subst hx2
            exact ⟨f0, hf0, hin0,
              List.any_eq_true.mpr ⟨oe, hsub oe (List.mem_cons_self _ _), by simp⟩⟩
        · rw [Dict.lookup_dset_ne _ _ hik] at hli
          exact hcert1 item lst hli x hx
      exact cutOutputs_cert facs f0 short frac hf0 hin0 rest _ _ p' l'
        (fun q hq => hsub q (List.mem_cons_of_mem _ hq)) hcert2 h

theorem cutFacilities_prod (short : String) (frac : ℚ) (hfrac : frac ≤ 1) :
    ∀ (fs : List Facility) (prod : List (String × ℚ)) (lim : List (String × List String))
      (p' : List (String × ℚ)) (l' : List (String × List String)),
      (∀ f ∈ fs, ∀ q ∈ (f.get_adjusted_rates).2, 0 ≤ q.2) →
      (∀ p ∈ prod, ∃ i : ℤ, p.2 = (i : ℚ) / 100) →
      cutFacilities short frac fs prod lim = Except.ok (p', l') →
      (∀ key, dget p' key 0 ≤ dget prod key 0) ∧
      (∀ p ∈ p', ∃ i : ℤ, p.2 = (i : ℚ) / 100)
  | [], prod, lim, p', l' => by
    intro _ hvals h
    simp only [cutFacilities] at h
    rcases Prod.mk.injEq _ _ _ _ ▸ Except.ok.inj h with ⟨h1, h2⟩
    subst h1
    exact ⟨fun key => le_refl _, hvals⟩
  | f :: fs, prod, lim, p', l' => by
    intro houts hvals h
    simp only [cutFacilities] at h
    by_cases hc : ((f.get_adjusted_rates).1.map Prod.fst).contains short
    · rw [if_pos hc] at h
      rcases hco : cutOutputs short frac (f.get_adjusted_rates).2 prod lim with err | st'
      · rw [hco] at h
        exact Except.noConfusion h
      · rw [hco] at h
        have h1 := cutOutputs_prod short frac hfrac _ _ _ st'.1 st'.2
          (houts f (List.mem_cons_self _ _)) hvals (by rw [hco])
        have h2 := cutFacilities_prod short frac hfrac fs st'.1 st'.2 p' l'
          (fun g hg => houts g (List.mem_cons_of_mem _ hg)) h1.2 h
        exact ⟨fun key => le_trans (h2.1 key) (h1.1 key), h2.2⟩
    · rw [if_neg hc] at h
      exact cutFacilities_prod short frac hfrac fs prod lim p' l'
        (fun g hg => houts g (List.mem_cons_of_mem _ hg)) hvals h

theorem cutFacilities_lim (short : String) (frac : ℚ) :
    ∀ (fs : List Facility) (prod : List (String × ℚ)) (lim : List (String × List String))
      (p' : List (String × ℚ)) (l' : List (String × List String)),
      cutFacilities short frac fs prod lim = Except.ok (p', l') →
      ∀ k, (List.lookup k lim).isSome → (List.lookup k l').isSome
  | [], prod, lim, p', l' => by
    intro h k hk
    simp only [cutFacilities] at h
    rcases Prod.mk.injEq _ _ _ _ ▸ Except.ok.inj h with ⟨h1, h2⟩
    subst h2
    exact hk
  | f :: fs, prod, lim, p', l' => by
    intro h k hk
    simp only [cutFacilities] at h
    by_cases hc : ((f.get_adjusted_rates).1.map Prod.fst).contains short
    · rw [if_pos hc] at h
      rcases hco : cutOutputs short frac (f.get_adjusted_rates).2 prod lim with err | st'
      · rw [hco] at h
        exact Except.noConfusion h
      · rw [hco] at h
        exact cutFacilities_lim short frac fs st'.1 st'.2 p' l' h k
          (cutOutputs_lim short frac _ _ _ st'.1 st'.2 (by rw [hco]) k hk)
    · rw [if_neg hc] at h
      exact cutFacilities_lim short frac fs prod lim p' l' h k hk

theorem cutFacilities_cert (facs : List Facility) (short : String) (frac : ℚ) :
    ∀ (fs : List Facility) (prod : List (String × ℚ)) (lim : List (String × List String))
      (p' : List (String × ℚ)) (l' : List (String × List String)),
      (∀ f ∈ fs, f ∈ facs) →
      LimCert facs lim →
      cutFacilities short frac fs prod lim = Except.ok (p', l') →
      LimCert facs l'
  | [], prod, lim, p', l' => by
    intro _ hcert h
    simp only [cutFacilities] at h
    rcases Prod.mk.injEq _ _ _ _ ▸ Except.ok.inj h with ⟨h1, h2⟩
    subst h2
    exact hcert
  | f :: fs, prod, lim, p', l' => by
    intro hfs hcert h
    simp only [cutFacilities] at h
    by_cases hc : ((f.get_adjusted_rates).1.map Prod.fst).contains short
    · rw [if_pos hc] at h
      rcases hco : cutOutputs short frac (f.get_adjusted_rates).2 prod lim with err | st'
      · rw [hco] at h
        exact Except.noConfusion h
      · rw [hco] at h
        have hin0 : ((f.get_adjusted_rates).1.any fun q => q.1 = short) = true := by
          rw [← contains_map_fst]
          exact hc
        have hcert' := cutOutputs_cert facs f short frac (hfs f (List.mem_cons_self _ _))
          hin0 _ _ _ st'.1 st'.2 (fun q hq => hq) hcert (by rw [hco])
        exact cutFacilities_cert facs short frac fs st'.1 st'.2 p' l'
          (fun g hg => hfs g (List.mem_cons_of_mem _ hg)) hcert' h
    · rw [if_neg hc] at h
      exact cutFacilities_cert facs short frac fs prod lim p' l'
        (fun g hg => hfs g (List.mem_cons_of_mem _ hg)) hcert h

theorem propagateSpec_lim (facs : List Facility) :
    ∀ (todo : List (String × ℚ)) (prod : List (String × ℚ))
      (lim : List (String × List String)) (pf : List (String × ℚ))
      (lf : List (String × List String)),
      propagateSpec facs todo prod lim = Except.ok (pf, lf) →
      ∀ k, (List.lookup k lim).isSome → (List.lookup k lf).isSome
  | [], prod, lim, pf, lf => by
    intro h k hk
    simp only [propagateSpec] at h
    rcases Prod.mk.injEq _ _ _ _ ▸ Except.ok.inj h with ⟨h1, h2⟩
    subst h2
    exact hk
  | e :: rest, prod, lim, pf, lf => by
    intro h k hk
    simp only [propagateSpec] at h
    by_cases h1 : dget prod e.1 0 < e.2
    · rw [if_pos h1] at h
      by_cases h2 : e.2 = 0
      · rw [if_pos h2] at h
        exact Except.noConfusion h
      · rw [if_neg h2] at h
        rcases hcf : cutFacilities e.1 (round_float (dget prod e.1 0 / e.2) 4) facs prod
            (dset lim e.1 []) with err | st'
        · rw [hcf] at h
          exact Except.noConfusion h
        · rw [hcf] at h
          exact propagateSpec_lim facs rest st'.1 st'.2 pf lf h k
            (cutFacilities_lim _ _ _ _ _ st'.1 st'.2 (by rw [hcf]) k
              (Dict.lookup_dset_isSome lim e.1 k [] hk))
    · rw [if_neg h1] at h
      exact propagateSpec_lim facs rest prod lim pf lf h k hk

theorem propagateSpec_cert (facs : List Facility) :
    ∀ (todo : List (String × ℚ)) (prod : List (String × ℚ))
      (lim : List (String × List String)) (pf : List (String × ℚ))
      (lf : List (String × List String)),
      LimCert facs lim →
      propagateSpec facs todo prod lim = Except.ok (pf, lf) →
      LimCert facs lf
  | [], prod, lim, pf, lf => by
    intro hcert h
    simp only [propagateSpec] at h
    rcases Prod.mk.injEq _ _ _ _ ▸ Except.ok.inj h with ⟨h1, h2⟩
    subst h2
    exact hcert
  | e :: rest, prod, lim, pf, lf => by
    intro hcert h
    simp only [propagateSpec] at h
    by_cases h1 : dget prod e.1 0 < e.2
    · rw [if_pos h1] at h
      by_cases h2 : e.2 = 0
      · rw [if_pos h2] at h
        exact Except.noConfusion h
      · rw [if_neg h2] at h
        rcases hcf : cutFacilities e.1 (round_float (dget prod e.1 0 / e.2) 4) facs prod
            (dset lim e.1 []) with err | st'
        · rw [hcf] at h
          exact Except.noConfusion h
        · rw [hcf] at h
          exact propagateSpec_cert facs rest st'.1 st'.2 pf lf
            (cutFacilities_cert facs _ _ _ _ _ st'.1 st'.2 (fun f hf => hf)
              (limCert_dset_nil facs lim e.1 hcert) (by rw [hcf])) h
    · rw [if_neg h1] at h
      exact propagateSpec_cert facs rest prod lim pf lf hcert h

/-- Whenever the output-cut loop changes a production total, it also records
a limiting-factors entry for that key. -/
theorem cutOutputs_changed_key (short : String) (frac : ℚ) :
    ∀ (outs prod : List (String × ℚ)) (lim : List (String × List String))
      (p' : List (String × ℚ)) (l' : List (String × List String)),
      cutOutputs short frac outs prod lim = Except.ok (p', l') →
      ∀ k, dget p' k 0 ≠ dget prod k 0 → (List.lookup k l').isSome
  | [], prod, lim, p', l' => by
    intro h k hne
    simp only [cutOutputs] at h
    rcases Prod.mk.injEq _ _ _ _ ▸ Except.ok.inj h with ⟨h1, h2⟩
    subst h1
    exact absurd rfl hne
  | oe :: rest, prod, lim, p', l' => by
    intro h k hne
    simp only [cutOutputs] at h
    rcases hl : List.lookup oe.1 prod with _ | cur
    · rw [hl] at h
      exact Except.noConfusion h
    · rw [hl] at h
      by_cases hk : k = oe.1
      · subst hk
        refine cutOutputs_lim short frac rest _ _ p' l' h oe.1 ?_
        rw [Dict.lookup_dset_self]
        rfl
      · refine cutOutputs_changed_key short frac rest _ _ p' l' h k ?_
        rw [dget_dset_ne prod _ 0 hk]
        exact hne

/-- Whenever the facility-cut loop changes a production total, it also records
a limiting-factors entry for that key. -/
theorem cutFacilities_changed_key (short : String) (frac : ℚ) :
    ∀ (fs : List Facility) (prod : List (String × ℚ)) (lim : List (String × List String))
      (p' : List (String × ℚ)) (l' : List (String × List String)),
      cutFacilities short frac fs prod lim = Except.ok (p', l') →
      ∀ k, dget p' k 0 ≠ dget prod k 0 → (List.lookup k l').isSome
  | [], prod, lim, p', l' => by
    intro h k hne
    simp only [cutFacilities] at h
    rcases Prod.mk.injEq _ _ _ _ ▸ Except.ok.inj h with ⟨h1, h2⟩
    subst h1
    exact absurd rfl hne
  | f :: fs, prod, lim, p', l' => by
    intro h k hne
    simp only [cutFacilities] at h
    by_cases hc : ((f.get_adjusted_rates).1.map Prod.fst).contains short
    · rw [if_pos hc] at h
      rcases hco : cutOutputs short frac (f.get_adjusted_rates).2 prod lim with err | st'
      · rw [hco] at h
        exact Except.noConfusion h
      · rw [hco] at h
        by_cases hmid : dget st'.1 k 0 = dget prod k 0
        · refine cutFacilities_changed_key short frac fs st'.1 st'.2 p' l' h k ?_
          rw [hmid]
          exact hne
        · exact cutFacilities_lim short frac fs st'.1 st'.2 p' l' h k
            (cutOutputs_changed_key short frac _ _ _ st'.1 st'.2 (by rw [hco]) k hmid)
    · rw [if_neg hc] at h
      exact cutFacilities_changed_key short frac fs prod lim p' l' h k hne

theorem propagateSpec_short_key (facs : List Facility) :
    ∀ (todo : List (String × ℚ)) (prod : List (String × ℚ))
      (lim : List (String × List String)) (pf : List (String × ℚ))
      (lf : List (String × List String)),
      propagateSpec facs todo prod lim = Except.ok (pf, lf) →
      ∀ item c, (item, c) ∈ todo → dget prod item 0 < c →
      (List.lookup item lf).isSome
  | [], prod, lim, pf, lf => by
    intro _ item c hmem
    simp at hmem
  | e :: rest, prod, lim, pf, lf => by
    intro h item c hmem hlt
    simp only [propagateSpec] at h
    rcases List.mem_cons.mp hmem with heq | hmem'
    · have hitem : item = e.1 := congrArg Prod.fst heq
      have hceq : c = e.2 := congrArg Prod.snd heq
      rw [hitem] at hlt ⊢
      rw [hceq] at hlt
      rw [if_pos hlt] at h
      by_cases h2 : e.2 = 0
      · rw [if_pos h2] at h
        exact Except.noConfusion h
      · rw [if_neg h2] at h
        rcases hcf : cutFacilities e.1 (round_float (dget prod e.1 0 / e.2) 4) facs prod
            (dset lim e.1 []) with err | st'
        · rw [hcf] at h
          exact Except.noConfusion h
        · rw [hcf] at h
          refine propagateSpec_lim facs rest st'.1 st'.2 pf lf h e.1 ?_
          refine cutFacilities_lim _ _ _ _ _ st'.1 st'.2 (by rw [hcf]) e.1 ?_
          rw [Dict.lookup_dset_self]
          rfl
    · by_cases h1 : dget prod e.1 0 < e.2
      · rw [if_pos h1] at h
        by_cases h2 : e.2 = 0
        · rw [if_pos h2] at h
          exact Except.noConfusion h
        · rw [if_neg h2] at h
          rcases hcf : cutFacilities e.1 (round_float (dget prod e.1 0 / e.2) 4) facs prod
              (dset lim e.1 []) with err | st'
          · rw [hcf] at h
            exact Except.noConfusion h
          · rw [hcf] at h
            by_cases hch : dget st'.1 item 0 < c
            · exact propagateSpec_short_key facs rest st'.1 st'.2 pf lf h item c hmem' hch
            · have hne : dget st'.1 item 0 ≠ dget prod item 0 := fun hEq =>
                hch (hEq ▸ hlt)
              exact propagateSpec_lim facs rest st'.1 st'.2 pf lf h item
                (cutFacilities_changed_key _ _ _ _ _ st'.1 st'.2 (by rw [hcf]) item hne)
      · rw [if_neg h1] at h
        exact propagateSpec_short_key facs rest prod lim pf lf h item c hmem' hlt

/-- C9: (a) every resource whose aggregated consumption total strictly exceeds
its aggregated production total appears as a key of the returned
limiting-factors map — when it is visited it is either still short against
the current production total (the branch records it) or its production total
was already changed by an earlier cut (which records it as a limited output) —
and (b) every nonempty limiting-factors entry certifies an active converter
listing the limited item among its adjusted outputs and a recorded shortage
resource among its adjusted inputs; hence a shortage resource that is not an
adjusted output of any throttled converter appears with the empty list,
visible to callers iterating the map alongside the limited output items. -/
theorem c9_shortage_keys (g : ProductionGraph)
    (prodF consF : List (String × ℚ)) (limF : List (String × List String))
    (hok : g.calculate_production_rates = Except.ok (prodF, consF, limF)) :
    (∀ item c, (item, c) ∈ g.aggregate.2 → dget g.aggregate.1 item 0 < c →
      (List.lookup item limF).isSome) ∧
    (∀ item lst, List.lookup item limF = some lst → lst ≠ [] →
      ∃ f ∈ g.allFacilities, ((f.get_adjusted_rates).2.any fun q => q.1 = item) ∧
        ∃ x ∈ lst, ((f.get_adjusted_rates).1.any fun q => q.1 = x)) := by
  simp only [ProductionGraph.calculate_production_rates] at hok
  rw [shortage_pass_eq_propagateSpec g _ (g.aggregate.1, [])] at hok
  rcases hp : propagateSpec g.allFacilities g.aggregate.2 g.aggregate.1 [] with err | st
  · rw [hp] at hok
    exact Except.noConfusion hok
  · rw [hp] at hok
    have hok' := Except.ok.inj hok
    have hlim : st.2 = limF := congrArg (fun t => t.2.2) hok'
    constructor
    · intro item c hmem hlt
      rw [← hlim]
      exact propagateSpec_short_key g.allFacilities g.aggregate.2 g.aggregate.1 []
        st.1 st.2 hp item c hmem hlt
    · intro item lst hl hne
      have hcert : LimCert g.allFacilities st.2 := by
        refine propagateSpec_cert g.allFacilities g.aggregate.2 g.aggregate.1 []
          st.1 st.2 ?_ hp
        intro it l0 hl0
        simp at hl0
      rw [← hlim] at hl
      rcases lst with _ | ⟨x, xs⟩
      · exact absurd rfl hne
      · rcases hcert item (x :: xs) hl x (List.mem_cons_self _ _) with ⟨f, hf, hxin, hitem⟩
        exact ⟨f, hf, hitem, x, List.mem_cons_self _ _, hxin⟩

unseal Rat.add Rat.mul Rat.inv Rat.sub Rat.ofScientific in
/-- Witness for `c9_shortage_keys` on the chained-shortage graph: Ore (cons 60
> prod 30 after aggregation) is a key of the returned map, and Plate's
nonempty entry ["Ingot"] is certified by the Plate constructor (input Ingot,
output Plate). -/
theorem c9_witness :
    (List.lookup "Ore"
      [("Ore", ([] : List String)), ("Ingot", []), ("Plate", ["Ingot"])]).isSome ∧
    ∃ f ∈ graphChain.allFacilities,
      ((f.get_adjusted_rates).2.any fun q => q.1 = "Plate") ∧
      ∃ x ∈ ["Ingot"], ((f.get_adjusted_rates).1.any fun q => q.1 = x) := by
  have h := c9_shortage_keys graphChain
    [("Ore", 30), ("Ingot", 15), ("Plate", 15)] [("Ore", 60), ("Ingot", 30)]
    [("Ore", []), ("Ingot", []), ("Plate", ["Ingot"])] (by decide)
  exact ⟨h.1 "Ore" 60 (by decide) (by decide),
    h.2 "Plate" ["Ingot"] (by decide) (by decide)⟩
